import Mathlib

/-!
Verification development for the RAGged chunking / retrieval-evaluation core.

The definitions below are a shallow embedding of the Python sources:
  src/chunking/fixed_token.py, src/chunking/sliding_window.py,
  src/chunking/sentence_aware.py, src/chunk_router.py, src/querier.py,
  src/evaluate_retrieval.py, src/tokenizer.py, src/run_chunking.py.
External collaborators (tokenizers, the spaCy sentence segmenter, the
embedding service, the vector search backend, object storage) are modelled
as function parameters, exactly as wide as the interface the source uses.
Python floats are modelled as rationals; Python exceptions as `Except`.
-/

/-! ## Small Python-semantics helpers -/

/-- Decimal digits of `n`, little endian, by repeated division as in the
usual decimal rendering; `fuel` bounds the recursion depth (any
`fuel ≥ n` is enough).  `decDigits fuel 0 = []`. -/
def decDigits : Nat → Nat → List Nat
  | 0, _ => []
  | _ + 1, 0 => []
  | fuel + 1, n + 1 => ((n + 1) % 10) :: decDigits fuel ((n + 1) / 10)

/-- Character for one decimal digit. -/
def digitChar10 : Nat → Char
  | 0 => '0'
  | 1 => '1'
  | 2 => '2'
  | 3 => '3'
  | 4 => '4'
  | 5 => '5'
  | 6 => '6'
  | 7 => '7'
  | 8 => '8'
  | 9 => '9'
  | _ => '*'

/-- Decimal rendering of a natural number, as Python `str`/f-strings render
the non-negative integers used for chunk sequence numbers. -/
def natDecimal (n : Nat) : String :=
  if n = 0 then "0" else ⟨((decDigits n n).reverse.map digitChar10)⟩

/-- Chunk id format shared by the chunkers: `f"{doc}_{code}_{n}"`
(`src/chunking/fixed_token.py:44`, `sliding_window.py:48`,
`sentence_aware.py:39`). -/
def mkChunkId (doc code : String) (n : Nat) : String :=
  doc ++ "_" ++ code ++ "_" ++ natDecimal n

/-- Index of the last occurrence of `c` in `l` (Python `str.rfind`). -/
def lastIdx (c : Char) (l : List Char) : Option Nat :=
  l.enum.foldl (fun acc p => if p.2 = c then some p.1 else acc) none

/-- Root part of `os.path.splitext`: cut at the last dot when the last dot
lies inside the basename and some character of the basename before it is
not a dot; otherwise return the path unchanged. -/
def splitextRoot (s : String) : String :=
  let cs := s.data
  match lastIdx '.' cs with
  | none => s
  | some d =>
      let fstart := match lastIdx '/' cs with
        | some i => i + 1
        | none => 0
      if fstart ≤ d ∧ ((cs.take d).drop fstart).any (fun c => c ≠ '.') then
        ⟨cs.take d⟩
      else s

/-- The 32 characters of Python `string.punctuation`. -/
def pyPunctuation : List Char :=
  ['!', '"', '#', '$', '%', '&', '\'', '(', ')', '*', '+', ',', '-', '.',
   '/', ':', ';', '<', '=', '>', '?', '@', '[', '\\', ']', '^', '_',
   '\x60', '\x7b', '|', '\x7d', '~']

/-- The six characters Python `str.strip()` removes. -/
def pyWhitespace : List Char :=
  [' ', '\t', '\n', '\r', '\x0b', '\x0c']

/-- Python `str.strip()` on a character list. -/
def stripWs (l : List Char) : List Char :=
  ((l.dropWhile (· ∈ pyWhitespace)).reverse.dropWhile (· ∈ pyWhitespace)).reverse

/-- The querier normalization (`src/querier.py:136`):
`text.lower().translate(str.maketrans('', '', string.punctuation)).strip()`.
Namespaced because `normalize` already exists in Mathlib. -/
def Querier.normalize (s : String) : String :=
  ⟨stripWs (((s.data.map Char.toLower)).filter (fun c => ¬ c ∈ pyPunctuation))⟩

/-- Python string containment `sub in s`: `sub` occurs as a contiguous
substring of `s`. -/
def pyIn (sub : List Char) : List Char → Bool
  | [] => sub.isEmpty
  | c :: rest => sub.isPrefixOf (c :: rest) || pyIn sub rest

/-- Python true division on rationals: raises `ZeroDivisionError` on a zero
denominator. -/
def pyDiv (a b : ℚ) : Except String ℚ :=
  if b = 0 then Except.error "ZeroDivisionError" else Except.ok (a / b)

/-- Python `max` over a list: raises `ValueError` when the list is empty. -/
def pyMax (l : List Nat) : Except String Nat :=
  match l with
  | [] => Except.error "ValueError: max() arg is an empty sequence"
  | x :: xs => Except.ok (xs.foldl max x)

/-! ## Data model -/

/-- Tokenizer adapter collaborator (`src/tokenizer.py`): `get_tokenizer`
returns a model/provider specific object; the provider-specific call
variants (`add_special_tokens=False`, `skip_special_tokens=True` for
huggingface, the plain tiktoken calls for openai) are hidden behind the
returned object's `encode`/`decode`. -/
structure Tokenizer where
  encode : String → List Nat
  decode : List Nat → String

/-- One entry of `config["embedding"]`: a provider name and an optional
model override (`emb.get("model", ...)` in `sliding_window.py:14`). -/
structure EmbEntry where
  provider : String
  modelOpt : Option String

/-- The configuration keys the chunking core reads.  `sentence_max_tokens`
and `chunking_strategy` model the nested `config["chunking"]` section read
by `sentence_aware.py:7` and `chunk_router.py:7`; `huggingface`/`openai`
hold the per-provider model-name lists (`config["huggingface"][i]["model"]`). -/
structure Config where
  fixed_chunk_size : Nat
  overlap : Nat
  sentence_max_tokens : Nat
  chunking_strategy : String
  embedding : List EmbEntry
  huggingface : List String
  openai : List String

/-- A chunk record as built by the three chunkers: the dict with keys
`chunk_id`, `text`, `char_start`, `char_end`, `strategy`, `source`,
`tokens` (a model-name → token-count mapping). -/
structure Chunk where
  chunk_id : String
  text : String
  char_start : Nat
  char_end : Nat
  strategy : String
  source : String
  tokens : List (String × Nat)
deriving DecidableEq

/-! ## Fixed-token chunker (`src/chunking/fixed_token.py`) -/

/-- The window comprehension of `fixed_token.py:29-32`:
`[all_token_ids[i : i + max_tokens] for i in range(0, len(all_token_ids), max_tokens)]`. -/
def idChunks (ids : List Nat) (maxTokens : Nat) : List (List Nat) :=
  (List.range' 0 ((ids.length + maxTokens - 1) / maxTokens) maxTokens).map
    (fun i => (ids.drop i).take maxTokens)

/-- The emission loop shared by `fixed_token.py:35-55` and
`sliding_window.py:41-59`: decode each id window, accumulate character
offsets (`char_start` starts at 0; each next `char_start` is the previous
`char_end + 1`), and number the chunk ids from 1. -/
def emitTokenChunks (decode : List Nat → String)
    (doc source model strategyName code : String) :
    Nat → Nat → List (List Nat) → List Chunk
  | _, _, [] => []
  | charStart, idx, w :: ws =>
      let t := decode w
      let charEnd := charStart + t.length
      { chunk_id := mkChunkId doc code (idx + 1)
        text := t
        char_start := charStart
        char_end := charEnd
        strategy := strategyName
        source := source
        tokens := [(model, w.length)] } ::
        emitTokenChunks decode doc source model strategyName code
          (charEnd + 1) (idx + 1) ws

/-- One pass of the fixed-token chunker body (`fixed_token.py:19-55`) for a
resolved tokenizer and model name: encode the full text once, window the
ids, emit the chunk records. -/
def fixedTokenPass (tok : Tokenizer) (model : String) (maxTokens : Nat)
    (doc source text : String) : List Chunk :=
  emitTokenChunks tok.decode doc source model "fixed_token" "ft" 0 0
    (idChunks (tok.encode text) maxTokens)

/-- The `for emb in config["embedding"]` loop of `fixed_token.py:8-55`:
the model comes from the provider-specific config section (index 0; an
empty section raises `IndexError`), unsupported providers are skipped with
a message, and every pass appends to one shared chunk list. -/
def ftLoop (getTok : String → String → Tokenizer) (text doc_id : String)
    (cfg : Config) : List EmbEntry → Except String (List Chunk)
  | [] => Except.ok []
  | e :: rest => do
      let cs ← (match e.provider with
        | "huggingface" =>
            match cfg.huggingface with
            | [] => Except.error "IndexError"
            | m :: _ =>
                Except.ok (fixedTokenPass (getTok m "huggingface") m
                  cfg.fixed_chunk_size (splitextRoot doc_id) doc_id text)
        | "openai" =>
            match cfg.openai with
            | [] => Except.error "IndexError"
            | m :: _ =>
                Except.ok (fixedTokenPass (getTok m "openai") m
                  cfg.fixed_chunk_size (splitextRoot doc_id) doc_id text)
        | _ => Except.ok [])
      let csRest ← ftLoop getTok text doc_id cfg rest
      pure (cs ++ csRest)

/-- `fixed_token_chunk(text, doc_id, config, model_provider_map)` of
`src/chunking/fixed_token.py` (the model/provider map argument is unused by
the source function). -/
def fixed_token_chunk (getTok : String → String → Tokenizer)
    (text doc_id : String) (cfg : Config) : Except String (List Chunk) :=
  ftLoop getTok text doc_id cfg cfg.embedding

/-! ## Sliding-window chunker (`src/chunking/sliding_window.py`) -/

/-- The window-start loop of `sliding_window.py:32-38`:
`start_idx = 0; while start_idx < total_tokens: ...; start_idx += stride`.
`fuel` bounds the iteration count; since the loop runs only when
`0 < stride`, any `fuel ≥ N - start` is enough. -/
def swStartsAux : Nat → Nat → Nat → Nat → List Nat
  | 0, _, _, _ => []
  | fuel + 1, n, stride, start =>
      if start < n then start :: swStartsAux fuel n stride (start + stride)
      else []

/-- The list of window start indices emitted by the sliding-window loop on
an id sequence of length `n` with the given stride. -/
def swStarts (n stride : Nat) : List Nat :=
  swStartsAux n n stride 0

/-- One pass of the sliding-window chunker body (`sliding_window.py:20-59`)
for a resolved tokenizer and model name.  Each window is
`all_token_ids[start : min(start + max_tokens, total)]`. -/
def slidingWindowPass (tok : Tokenizer) (model : String)
    (maxTokens stride : Nat) (doc source text : String) : List Chunk :=
  let ids := tok.encode text
  emitTokenChunks tok.decode doc source model "sliding_window" "sw" 0 0
    ((swStarts ids.length stride).map (fun s => (ids.drop s).take maxTokens))

/-- The `for emb in config["embedding"]` loop of `sliding_window.py:12-59`:
the model is `emb.get("model", "BAAI/bge-large-en")` for huggingface and
`"text-embedding-3-small"` otherwise, models absent from
`model_provider_map` are skipped, and providers other than huggingface are
skipped (`print("wrong provider"); continue`). -/
def swLoop (getTok : String → String → Tokenizer) (text doc_id : String)
    (cfg : Config) (mpm : List (String × String)) : List EmbEntry → List Chunk
  | [] => []
  | e :: rest =>
      let model := if e.provider = "huggingface" then
          e.modelOpt.getD "BAAI/bge-large-en"
        else "text-embedding-3-small"
      (if (mpm.lookup model).isNone then []
       else if e.provider = "huggingface" then
         slidingWindowPass (getTok model e.provider) model
           cfg.fixed_chunk_size (cfg.fixed_chunk_size - cfg.overlap)
           (splitextRoot doc_id) doc_id text
       else []) ++ swLoop getTok text doc_id cfg mpm rest

/-- `sliding_window_chunk(text, doc_id, config, model_provider_map)` of
`src/chunking/sliding_window.py`: raises `ValueError` when
`stride = max_tokens - overlap` is not positive, then runs the provider
loop. -/
def sliding_window_chunk (getTok : String → String → Tokenizer)
    (text doc_id : String) (cfg : Config) (mpm : List (String × String)) :
    Except String (List Chunk) :=
  if cfg.fixed_chunk_size ≤ cfg.overlap then
    Except.error "ValueError: Overlap must be smaller than chunk_size."
  else Except.ok (swLoop getTok text doc_id cfg mpm cfg.embedding)

/-! ## Sentence-aware chunker (`src/chunking/sentence_aware.py`) -/

/-- A sentence triple `(sent.text, sent.start_char, sent.end_char)` from
the spaCy segmentation collaborator (`sentence_aware.py:11-14`). -/
structure Sent where
  text : String
  startC : Nat
  endC : Nat
deriving DecidableEq

/-- The greedy packing loop of `sentence_aware.py:27-55` on
(sentence, token-count) pairs: when the buffer is non-empty and adding the
next count would exceed the budget, close the buffer and start a new one
holding only the current sentence; afterwards flush any leftover buffer. -/
def sentencePack (maxTokens : Nat) :
    List (Sent × Nat) → List (Sent × Nat) → Nat → List (List (Sent × Nat))
  | [], buf, _ => if buf = [] then [] else [buf]
  | sc :: rest, buf, bufTokens =>
      if buf ≠ [] ∧ maxTokens < bufTokens + sc.2 then
        buf :: sentencePack maxTokens rest [sc] sc.2
      else
        sentencePack maxTokens rest (buf ++ [sc]) (bufTokens + sc.2)

/-- Chunk-record construction for one finalized sentence buffer
(`sentence_aware.py:38-46` and `62-70`): text is the buffered sentence
texts joined by a single space, offsets come from the first and last
buffered sentences, `tokens` is `get_token_counts(chunk_text, ...)`. -/
def mkSentChunk (getCounts : String → List (String × Nat)) (doc_id : String)
    (i : Nat) (b : List (Sent × Nat)) : Chunk :=
  let chunkText := String.intercalate " " (b.map (fun sc => sc.1.text))
  { chunk_id := mkChunkId doc_id "chunk" (i + 1)
    text := chunkText
    char_start := (b.head?.map (fun sc => sc.1.startC)).getD 0
    char_end := (b.getLast?.map (fun sc => sc.1.endC)).getD 0
    strategy := "sentence_aware"
    source := doc_id
    tokens := getCounts chunkText }

/-- The `sent_token_counts` dict comprehension of `sentence_aware.py:17-20`:
pair every sentence with `max(get_token_counts(sent_text, ...).values())`
(which raises `ValueError` when no model is configured).  The dict is keyed
by sentence text, so the count is a function of the text, as here. -/
def mapCounts (getCounts : String → List (String × Nat)) :
    List Sent → Except String (List (Sent × Nat))
  | [] => Except.ok []
  | s :: rest => do
      let c ← pyMax ((getCounts s.text).map Prod.snd)
      let rest' ← mapCounts getCounts rest
      pure ((s, c) :: rest')

/-- `sentence_aware_chunk(text, doc_id, config, model_provider_map)` of
`src/chunking/sentence_aware.py`.  `segment` is the spaCy collaborator;
`getCounts` is `get_token_counts(text, model_provider_map)`
(`src/tokenizer.py:22-27`). -/
def sentence_aware_chunk (segment : String → List Sent)
    (getCounts : String → List (String × Nat)) (text doc_id : String)
    (cfg : Config) : Except String (List Chunk) := do
  let scs ← mapCounts getCounts (segment text)
  let bufs := sentencePack cfg.sentence_max_tokens scs [] 0
  pure (bufs.enum.map (fun p => mkSentChunk getCounts doc_id p.1 p.2))

/-! ## Chunk router (`src/chunk_router.py`) -/

namespace ChunkRouter

/-- The local placeholder `fixed_token_chunk(text, config)` of
`chunk_router.py:16-17`, which returns the empty list. -/
def fixed_token_chunk (text : String) (cfg : Config) : List Chunk := []

/-- The local placeholder `sliding_window_chunk(text, config)` of
`chunk_router.py:19-20`, which returns the empty list. -/
def sliding_window_chunk (text : String) (cfg : Config) : List Chunk := []

/-- `chunk(text, doc_id, config, model_provider_map)` of
`src/chunk_router.py:6-14`: dispatch on `config["chunking"]["strategy"]`.
Only the sentence-aware branch calls the real chunker (imported at
`chunk_router.py:4`); the other two names hit the local placeholders above;
unrecognized names raise `ValueError`. -/
def chunk (segment : String → List Sent)
    (getCounts : String → List (String × Nat)) (text doc_id : String)
    (cfg : Config) (mpm : List (String × String)) :
    Except String (List Chunk) :=
  if cfg.chunking_strategy = "fixed_token" then
    Except.ok (fixed_token_chunk text cfg)
  else if cfg.chunking_strategy = "sliding_window" then
    Except.ok (sliding_window_chunk text cfg)
  else if cfg.chunking_strategy = "sentence_aware" then
    sentence_aware_chunk segment getCounts text doc_id cfg
  else
    Except.error ("Invalid chunking strategy: " ++ cfg.chunking_strategy)

end ChunkRouter

/-! ## Gold-answer mapper (`src/querier.py:139-177`) -/

/-- A question/answer pair produced by the external question generator. -/
structure QAPair where
  question : String
  answer : String
deriving DecidableEq

/-- A gold label `{question, gold_chunk_id, strategy, source}` as appended
at `querier.py:169-174`. -/
structure GoldLabel where
  question : String
  gold_chunk_id : String
  strategy : String
  source : String
deriving DecidableEq

/-- The per-chunk condition at `querier.py:168`:
`if ans and ans in normalize(chunk['text'])`. -/
def ansMatches (qa : QAPair) (c : Chunk) : Bool :=
  (Querier.normalize qa.answer) ≠ "" &&
    pyIn (Querier.normalize qa.answer).data (Querier.normalize c.text).data

/-- The mapping loop of `map_answers_to_chunks` (`querier.py:165-175`) over
one downloaded chunk list: for each QA pair scan the chunks in order, and
on the first chunk whose normalized text contains the (non-empty)
normalized answer append one gold label and `break`; otherwise append
nothing. -/
def map_answers_to_chunks (qa_pairs : List QAPair) (chunks : List Chunk) :
    List GoldLabel :=
  qa_pairs.filterMap (fun qa =>
    (chunks.find? (fun c => ansMatches qa c)).map (fun c =>
      { question := qa.question
        gold_chunk_id := c.chunk_id
        strategy := c.strategy
        source := c.source }))

/-! ## Retrieval evaluator (`src/evaluate_retrieval.py`) -/

/-- A search hit: `hit.id`, and the payload fields the evaluator reads
(`payload.get("chunk_id", hit.id)`, `payload.get("latency", 0)`,
`payload.get("cost", 0)`). -/
structure Hit where
  id : String
  payloadChunkId : Option String
  latency : ℚ
  cost : ℚ
deriving DecidableEq

/-- The chunk id the evaluator compares against the gold id
(`evaluate_retrieval.py:192`). -/
def effChunkId (h : Hit) : String :=
  h.payloadChunkId.getD h.id

/-- One question of a QA-pair file: the fields of the stored gold labels
the evaluator reads (`q["strategy"]`, `q["question"]`, `q["gold_chunk_id"]`). -/
structure GoldQ where
  question : String
  strategy : String
  gold_chunk_id : String
deriving DecidableEq

/-- Per-strategy accumulator (`metrics["by_strategy"][strategy]`). -/
structure StratMetrics where
  total : Nat
  found_in_top_k : Nat
  total_latency_ms : ℚ
  total_cost : ℚ
  rank_distribution : List (Nat × Nat)
  recall_at_k : ℚ
  mean_reciprocal_rank : ℚ
  avg_latency_ms : Option ℚ
deriving DecidableEq

/-- The zero-initialized per-strategy accumulator
(`evaluate_retrieval.py:164-173`). -/
def initStratMetrics : StratMetrics :=
  { total := 0, found_in_top_k := 0, total_latency_ms := 0, total_cost := 0,
    rank_distribution := [], recall_at_k := 0, mean_reciprocal_rank := 0,
    avg_latency_ms := none }

/-- The overall accumulator (`metrics["overall"]` plus `by_strategy`);
`avg_latency_ms` is `none` until final aggregation adds the key. -/
structure Metrics where
  total_questions : Nat
  found_in_top_k : Nat
  total_latency_ms : ℚ
  total_cost : ℚ
  rank_distribution : List (Nat × Nat)
  recall_at_k : ℚ
  mean_reciprocal_rank : ℚ
  avg_latency_ms : Option ℚ
  by_strategy : List (String × StratMetrics)
deriving DecidableEq

/-- The zero-initialized metrics dict (`evaluate_retrieval.py:125-135`). -/
def initMetrics : Metrics :=
  { total_questions := 0, found_in_top_k := 0, total_latency_ms := 0,
    total_cost := 0, rank_distribution := [], recall_at_k := 0,
    mean_reciprocal_rank := 0, avg_latency_ms := none, by_strategy := [] }

/-- Python dict update `d[r] = d.get(r, 0) + 1`: bump in place when the key
exists, else append the new key (insertion order preserved). -/
def bumpRank (d : List (Nat × Nat)) (r : Nat) : List (Nat × Nat) :=
  if (d.lookup r).isSome then
    d.map (fun p => if p.1 = r then (p.1, p.2 + 1) else p)
  else d ++ [(r, 1)]

/-- Python dict read `by_strategy.get(s)` with the zero default that the
`if strategy not in metrics["by_strategy"]` block installs. -/
def getStrat (bs : List (String × StratMetrics)) (s : String) : StratMetrics :=
  (bs.lookup s).getD initStratMetrics

/-- Python dict write `by_strategy[s] = v`: update in place when the key
exists, else append. -/
def setStrat (bs : List (String × StratMetrics)) (s : String)
    (v : StratMetrics) : List (String × StratMetrics) :=
  if (bs.lookup s).isSome then
    bs.map (fun p => if p.1 = s then (p.1, v) else p)
  else bs ++ [(s, v)]

/-- The strategy bookkeeping at `evaluate_retrieval.py:163-175`: install the
zero entry when the strategy is new, then `["total"] += 1`. -/
def bumpStrategyTotal (m : Metrics) (s : String) : Metrics :=
  let sm := getStrat m.by_strategy s
  { m with by_strategy := setStrat m.by_strategy s { sm with total := sm.total + 1 } }

/-- The update block at `evaluate_retrieval.py:195-216` run when the gold
chunk is found at `rank`: bump `found_in_top_k` and the rank distribution,
add `1/rank` to the reciprocal-rank accumulator, and add the hit payload's
latency and cost, both overall and per strategy. -/
def applyFound (m : Metrics) (strat : String) (rank : Nat) (h : Hit) : Metrics :=
  let sm := getStrat m.by_strategy strat
  { m with
    found_in_top_k := m.found_in_top_k + 1
    rank_distribution := bumpRank m.rank_distribution rank
    mean_reciprocal_rank := m.mean_reciprocal_rank + 1 / (rank : ℚ)
    total_latency_ms := m.total_latency_ms + h.latency
    total_cost := m.total_cost + h.cost
    by_strategy := setStrat m.by_strategy strat
      { sm with
        found_in_top_k := sm.found_in_top_k + 1
        rank_distribution := bumpRank sm.rank_distribution rank
        mean_reciprocal_rank := sm.mean_reciprocal_rank + 1 / (rank : ℚ)
        total_latency_ms := sm.total_latency_ms + h.latency
        total_cost := sm.total_cost + h.cost } }

/-- The hit scan of `evaluate_retrieval.py:189-222`:
`for rank, hit in enumerate(hits, start=1)` with a `break` after the first
hit whose chunk id equals the gold chunk id. -/
def scanHits (gold strat : String) : Nat → List Hit → Metrics → Metrics
  | _, [], m => m
  | rank, h :: t, m =>
      if effChunkId h = gold then applyFound m strat rank h
      else scanHits gold strat (rank + 1) t m

/-- The per-question loop of `evaluate_retrieval.py:162-226`: for each
question bump the strategy totals, call the embedding collaborator, call
the search collaborator with `top_k`, and scan the returned hits.  Neither
collaborator call is wrapped in a handler, so the first failure aborts the
whole evaluation.  (The locally computed `cost` estimate at lines 182-186
is never used and is omitted.) -/
def evalQuestions (embed : String → Except String (List ℚ))
    (search : List ℚ → Nat → Except String (List Hit)) (topK : Nat) :
    List GoldQ → Metrics → Except String Metrics
  | [], m => Except.ok m
  | q :: qs, m => do
      let m1 := bumpStrategyTotal m q.strategy
      let v ← embed q.question
      let hits ← search v topK
      evalQuestions embed search topK qs (scanHits q.gold_chunk_id q.strategy 1 hits m1)

/-- One QA-pair file (`evaluate_retrieval.py:144-226`):
`total_questions += len(questions)` happens before the per-question loop. -/
def evaluateFile (embed : String → Except String (List ℚ))
    (search : List ℚ → Nat → Except String (List Hit)) (topK : Nat)
    (qs : List GoldQ) (m : Metrics) : Except String Metrics :=
  evalQuestions embed search topK qs
    { m with total_questions := m.total_questions + qs.length }

/-- The file loop: each successfully downloaded and parsed QA-pair file is
one question list. -/
def evalFiles (embed : String → Except String (List ℚ))
    (search : List ℚ → Nat → Except String (List Hit)) (topK : Nat) :
    List (List GoldQ) → Metrics → Except String Metrics
  | [], m => Except.ok m
  | qs :: rest, m => do
      let m1 ← evaluateFile embed search topK qs m
      evalFiles embed search topK rest m1

/-- Final aggregation for one strategy entry
(`evaluate_retrieval.py:235-242`): only entries with a positive total are
divided. -/
def finalizeStrat (p : String × StratMetrics) :
    Except String (String × StratMetrics) :=
  if 0 < p.2.total then do
    let rc ← pyDiv (p.2.found_in_top_k : ℚ) (p.2.total : ℚ)
    let mrr ← pyDiv p.2.mean_reciprocal_rank (p.2.total : ℚ)
    let avg ← pyDiv p.2.total_latency_ms (p.2.total : ℚ)
    pure (p.1, { p.2 with
      recall_at_k := rc
      mean_reciprocal_rank := mrr
      avg_latency_ms := some avg })
  else pure p

/-- The `for strategy in metrics["by_strategy"]` aggregation loop
(`evaluate_retrieval.py:235-242`). -/
def finalizeStrats : List (String × StratMetrics) →
    Except String (List (String × StratMetrics))
  | [] => Except.ok []
  | p :: rest => do
      let p' ← finalizeStrat p
      let rest' ← finalizeStrats rest
      pure (p' :: rest')

/-- Final aggregation (`evaluate_retrieval.py:228-242`): guarded by
`if total_questions > 0`, divide the accumulators; with zero questions the
zero-initialized rates are left untouched and no division runs. -/
def finalizeMetrics (m : Metrics) : Except String Metrics :=
  if 0 < m.total_questions then do
    let rc ← pyDiv (m.found_in_top_k : ℚ) (m.total_questions : ℚ)
    let mrr ← pyDiv m.mean_reciprocal_rank (m.total_questions : ℚ)
    let avg ← pyDiv m.total_latency_ms (m.total_questions : ℚ)
    let bs ← finalizeStrats m.by_strategy
    pure { m with
      recall_at_k := rc
      mean_reciprocal_rank := mrr
      avg_latency_ms := some avg
      by_strategy := bs }
  else pure m

/-- `evaluate_retrieval` (`src/evaluate_retrieval.py:89-280`) over the
loaded QA-pair files: run every file's questions, then aggregate.  Storage
listing/downloading and the metrics upload are outside the embedding. -/
def evaluate_retrieval (embed : String → Except String (List ℚ))
    (search : List ℚ → Nat → Except String (List Hit)) (topK : Nat)
    (files : List (List GoldQ)) : Except String Metrics := do
  let m ← evalFiles embed search topK files initMetrics
  finalizeMetrics m

/-! ## Helper views used by the statements -/

/-- Accumulated token count of a sentence buffer: the loop variable
`buffer_tokens` always equals this sum of the buffered per-sentence counts. -/
def sumTok (b : List (Sent × Nat)) : Nat :=
  (b.map Prod.snd).sum

/-- The value `max(get_token_counts(st, ...).values())` computes when the
count dict is non-empty. -/
def maxCount (getCounts : String → List (String × Nat)) (st : String) : Nat :=
  match (getCounts st).map Prod.snd with
  | [] => 0
  | x :: xs => xs.foldl max x

/-! ## Concrete fixtures for witnesses and counterexamples -/

/-- A concrete tokenizer: token ids enumerate positions, decode yields one
placeholder character per id. -/
def tokA : Tokenizer :=
  { encode := fun s => List.range s.data.length
    decode := fun ids => ⟨List.replicate ids.length 'x'⟩ }

/-- A concrete tokenizer that encodes every text to two ids. -/
def tokB : Tokenizer :=
  { encode := fun _ => [0, 1]
    decode := fun _ => "ab" }

/-- A single-model huggingface configuration. -/
def cfgW : Config :=
  { fixed_chunk_size := 4, overlap := 2, sentence_max_tokens := 5,
    chunking_strategy := "fixed_token",
    embedding := [{ provider := "huggingface", modelOpt := some "bge" }],
    huggingface := ["bge"], openai := ["te3"] }

/-- A configuration with two embedding entries (huggingface and openai). -/
def cfgDup : Config :=
  { cfgW with embedding := [{ provider := "huggingface", modelOpt := none },
                            { provider := "openai", modelOpt := none }] }

/-- The sentence-aware variant of the fixture configuration. -/
def cfgSA : Config :=
  { cfgW with chunking_strategy := "sentence_aware" }

/-- A fixture configuration with an unrecognized strategy name. -/
def cfgBad : Config :=
  { cfgW with chunking_strategy := "semantic" }

/-- A concrete model/provider map holding the fixture model. -/
def mpmW : List (String × String) :=
  [("bge", "huggingface")]

/-- A concrete sentence segmentation collaborator. -/
def segW : String → List Sent :=
  fun _ => [{ text := "Aa bb.", startC := 0, endC := 6 },
            { text := "Cc.", startC := 7, endC := 10 },
            { text := "Dd ee ff gg.", startC := 11, endC := 23 }]

/-- A concrete token-count collaborator: one model, one token per
whitespace-separated word. -/
def countsW : String → List (String × Nat) :=
  fun s => [("bge", (s.data.filter (· = ' ')).length + 1)]

/-- A chunk fixture for the mapper theorems. -/
def chunkA : Chunk :=
  { chunk_id := "d_ft_1", text := "Alpha beta!", char_start := 0,
    char_end := 11, strategy := "fixed_token", source := "d.txt",
    tokens := [("bge", 2)] }

/-- A second chunk fixture for the mapper theorems. -/
def chunkB : Chunk :=
  { chunk_id := "d_ft_2", text := "Gamma delta.", char_start := 12,
    char_end := 24, strategy := "fixed_token", source := "d.txt",
    tokens := [("bge", 2)] }

/-- Gold-question fixtures for the evaluator theorems. -/
def qW1 : GoldQ := { question := "q1", strategy := "fixed_token", gold_chunk_id := "g1" }

/-- A second gold-question fixture. -/
def qW2 : GoldQ := { question := "q2", strategy := "fixed_token", gold_chunk_id := "g2" }

/-- An embedding collaborator that fails on the first fixture question. -/
def embedFailW : String → Except String (List ℚ) :=
  fun q => if q = "q1" then Except.error "CollaboratorError: embedding" else Except.ok [1]

/-- A search collaborator that always succeeds with no hits. -/
def searchW : List ℚ → Nat → Except String (List Hit) :=
  fun _ _ => Except.ok []

/-- Hit fixtures: a non-gold hit and two hits carrying the gold id. -/
def hitA : Hit := { id := "h1", payloadChunkId := some "other", latency := 2, cost := 1 }

/-- A hit whose payload carries the gold chunk id. -/
def hitG : Hit := { id := "h2", payloadChunkId := some "g1", latency := 3, cost := 1 }

/-- A duplicate hit carrying the gold chunk id at a later rank. -/
def hitG2 : Hit := { id := "h3", payloadChunkId := some "g1", latency := 7, cost := 5 }

/-- A metrics fixture with two counted questions. -/
def mW : Metrics :=
  { initMetrics with
    total_questions := 2
    found_in_top_k := 1
    mean_reciprocal_rank := (1 : ℚ) / 2
    total_latency_ms := 10 }

/-! ## Helper lemmas: fixed-token windowing -/

theorem idChunks_nil (m : Nat) : idChunks [] m = [] := by
  unfold idChunks
  have h : (([] : List Nat).length + m - 1) / m = 0 := by
    cases m with
    | zero => rfl
    | succ k => simp only [List.length_nil, Nat.zero_add]; exact Nat.div_eq_of_lt (by omega)
  rw [h]
  rfl

theorem ceilDiv_drop (N m : Nat) (hm : 0 < m) (hN : 1 ≤ N) :
    (N - m + m - 1) / m = (N - 1) / m := by
  rcases le_or_lt N m with h | h
  · have h1 : N - m = 0 := by omega
    rw [h1, Nat.zero_add, Nat.div_eq_of_lt (by omega), Nat.div_eq_of_lt (by omega)]
  · have h2 : N - m + m - 1 = N - m - 1 + m := by omega
    rw [h2, Nat.add_div_right _ hm]
    have h3 : N - 1 = N - 1 - m + m := by omega
    rw [h3, Nat.add_div_right _ hm]
    congr 2
    omega

theorem idChunks_cons (ids : List Nat) (m : Nat) (hm : 0 < m) (h : ids ≠ []) :
    idChunks ids m = ids.take m :: idChunks (ids.drop m) m := by
  have hN : 1 ≤ ids.length := List.length_pos.mpr h
  unfold idChunks
  have hk : (ids.length + m - 1) / m = (ids.length - 1) / m + 1 := by
    have h1 : ids.length + m - 1 = ids.length - 1 + m := by omega
    rw [h1, Nat.add_div_right _ hm]
  rw [hk, List.range'_succ, List.map_cons, List.drop_zero]
  congr 1
  have hmap : List.range' (0 + m) ((ids.length - 1) / m) m =
      List.map (fun x => m + x) (List.range' 0 ((ids.length - 1) / m) m) := by
    rw [Nat.zero_add]
    have := (List.map_add_range' m 0 ((ids.length - 1) / m) m).symm
    rwa [Nat.add_zero] at this
  rw [hmap, List.map_map]
  have hlen : ((ids.drop m).length + m - 1) / m = (ids.length - 1) / m := by
    rw [List.length_drop]
    exact ceilDiv_drop ids.length m hm hN
  rw [hlen]
  apply List.map_congr_left
  intro i _
  simp only [Function.comp_apply, List.drop_drop]

theorem idChunks_rec_induction (m : Nat) (hm : 0 < m)
    (P : List Nat → Prop) (hnil : P [])
    (hstep : ∀ ids : List Nat, ids ≠ [] → P (ids.drop m) → P ids) :
    ∀ ids : List Nat, P ids := by
  have aux : ∀ k ids, List.length ids ≤ k → P ids := by
    intro k
    induction k with
    | zero =>
        intro ids h
        have : ids = [] := List.length_eq_zero.mp (by omega)
        subst this
        exact hnil
    | succ k ih =>
        intro ids h
        by_cases hn : ids = []
        · subst hn
          exact hnil
        · refine hstep ids hn (ih (ids.drop m) ?_)
          have := List.length_pos.mpr hn
          rw [List.length_drop]
          omega
  intro ids
  exact aux ids.length ids le_rfl

theorem idChunks_flatten (m : Nat) (hm : 0 < m) (ids : List Nat) :
    (idChunks ids m).flatten = ids := by
  induction ids using idChunks_rec_induction m hm with
  | hnil => rw [idChunks_nil]; rfl
  | hstep ids hne ih =>
      rw [idChunks_cons ids m hm hne, List.flatten_cons, ih,
        List.take_append_drop]

theorem idChunks_length_bounds (m : Nat) (hm : 0 < m) (ids : List Nat) :
    ∀ w ∈ idChunks ids m, 0 < w.length ∧ w.length ≤ m := by
  induction ids using idChunks_rec_induction m hm with
  | hnil =>
      rw [idChunks_nil]
      intro w hw
      cases hw
  | hstep ids hne ih =>
      rw [idChunks_cons ids m hm hne]
      intro w hw
      rcases List.mem_cons.mp hw with hw | hw
      · subst hw
        rw [List.length_take]
        have := List.length_pos.mpr hne
        constructor <;> omega
      · exact ih w hw

theorem idChunks_ne_nil (ids : List Nat) (m : Nat) (hm : 0 < m)
    (h : ids ≠ []) : idChunks ids m ≠ [] := by
  rw [idChunks_cons ids m hm h]
  exact List.cons_ne_nil _ _

theorem idChunks_dropLast_length (m : Nat) (hm : 0 < m) (ids : List Nat) :
    ∀ w ∈ (idChunks ids m).dropLast, w.length = m := by
  induction ids using idChunks_rec_induction m hm with
  | hnil =>
      rw [idChunks_nil]
      intro w hw
      cases hw
  | hstep ids hne ih =>
      rw [idChunks_cons ids m hm hne]
      by_cases h2 : ids.drop m = []
      · rw [h2, idChunks_nil]
        intro w hw
        cases hw
      · rw [List.dropLast_cons_of_ne_nil (idChunks_ne_nil _ m hm h2)]
        intro w hw
        rcases List.mem_cons.mp hw with hw | hw
        · subst hw
          rw [List.length_take]
          have h3 : m < ids.length := by
            have := List.length_pos.mpr h2
            rw [List.length_drop] at this
            omega
          omega
        · exact ih w hw

/-! ## Helper lemmas: the chunk emission loop -/

theorem emitTokenChunks_map_tokens (decode : List Nat → String)
    (doc source model st code : String) :
    ∀ (ws : List (List Nat)) (cs idx : Nat),
      (emitTokenChunks decode doc source model st code cs idx ws).map Chunk.tokens
        = ws.map (fun w => [(model, w.length)]) := by
  intro ws
  induction ws with
  | nil => intro cs idx; rfl
  | cons w ws ih =>
      intro cs idx
      simp only [emitTokenChunks, List.map_cons, ih]

theorem emitTokenChunks_map_text (decode : List Nat → String)
    (doc source model st code : String) :
    ∀ (ws : List (List Nat)) (cs idx : Nat),
      (emitTokenChunks decode doc source model st code cs idx ws).map Chunk.text
        = ws.map decode := by
  intro ws
  induction ws with
  | nil => intro cs idx; rfl
  | cons w ws ih =>
      intro cs idx
      simp only [emitTokenChunks, List.map_cons, ih]

theorem emitTokenChunks_length (decode : List Nat → String)
    (doc source model st code : String) :
    ∀ (ws : List (List Nat)) (cs idx : Nat),
      (emitTokenChunks decode doc source model st code cs idx ws).length
        = ws.length := by
  intro ws
  induction ws with
  | nil => intro cs idx; rfl
  | cons w ws ih =>
      intro cs idx
      simp only [emitTokenChunks, List.length_cons, ih]

theorem emitTokenChunks_map_chunk_id (decode : List Nat → String)
    (doc source model st code : String) :
    ∀ (ws : List (List Nat)) (cs idx : Nat),
      (emitTokenChunks decode doc source model st code cs idx ws).map Chunk.chunk_id
        = (List.range ws.length).map (fun i => mkChunkId doc code (idx + i + 1)) := by
  intro ws
  induction ws with
  | nil => intro cs idx; rfl
  | cons w ws ih =>
      intro cs idx
      simp only [emitTokenChunks, List.map_cons, ih, List.length_cons,
        List.range_succ_eq_map, List.map_map]
      congr 1
      apply List.map_congr_left
      intro i hi
      congr 1
      omega

theorem ftLoop_single_hf (getTok : String → String → Tokenizer)
    (text doc_id : String) (cfg : Config) (m : String) (tl : List String)
    (mo : Option String) (hhf : cfg.huggingface = m :: tl) :
    ftLoop getTok text doc_id cfg [{ provider := "huggingface", modelOpt := mo }] =
      Except.ok (fixedTokenPass (getTok m "huggingface") m cfg.fixed_chunk_size
        (splitextRoot doc_id) doc_id text) := by
  simp [ftLoop, hhf, Bind.bind, Except.bind, Pure.pure, Except.pure]

theorem ftLoop_single_oai (getTok : String → String → Tokenizer)
    (text doc_id : String) (cfg : Config) (m : String) (tl : List String)
    (mo : Option String) (hoai : cfg.openai = m :: tl) :
    ftLoop getTok text doc_id cfg [{ provider := "openai", modelOpt := mo }] =
      Except.ok (fixedTokenPass (getTok m "openai") m cfg.fixed_chunk_size
        (splitextRoot doc_id) doc_id text) := by
  simp [ftLoop, hoai, Bind.bind, Except.bind, Pure.pure, Except.pure]

/-! ## Claim C1 -/

/-- C1: for every document text, every `max_tokens > 0` and every
recognized model/provider pair (a single configured embedding entry whose
provider section holds the model at index 0), the fixed-token chunker
encodes the document once and partitions the resulting token-id sequence
into consecutive windows of exactly `max_tokens` ids (only the final
window may be shorter), so that concatenating the token-id spans of all
emitted chunks, in emission order, reconstructs the original id sequence
with no gap and no overlap; in particular a sequence of 10 ids with
`max_tokens = 4` yields windows of sizes `[4, 4, 2]`. -/
theorem fixed_token_partition (getTok : String → String → Tokenizer)
    (text doc_id m p : String) (cfg : Config) (mo : Option String)
    (hmax : 0 < cfg.fixed_chunk_size)
    (hemb : cfg.embedding = [{ provider := p, modelOpt := mo }])
    (hrec : (p = "huggingface" ∧ cfg.huggingface.head? = some m) ∨
            (p = "openai" ∧ cfg.openai.head? = some m)) :
    ∃ chunks : List Chunk,
      fixed_token_chunk getTok text doc_id cfg = Except.ok chunks ∧
      chunks = fixedTokenPass (getTok m p) m cfg.fixed_chunk_size
        (splitextRoot doc_id) doc_id text ∧
      ((idChunks ((getTok m p).encode text) cfg.fixed_chunk_size).flatten
          = (getTok m p).encode text) ∧
      (∀ w ∈ (idChunks ((getTok m p).encode text) cfg.fixed_chunk_size).dropLast,
        w.length = cfg.fixed_chunk_size) ∧
      (∀ w ∈ idChunks ((getTok m p).encode text) cfg.fixed_chunk_size,
        0 < w.length ∧ w.length ≤ cfg.fixed_chunk_size) ∧
      chunks.map Chunk.tokens
        = (idChunks ((getTok m p).encode text) cfg.fixed_chunk_size).map
            (fun w => [(m, w.length)]) ∧
      (idChunks (List.range 10) 4).map List.length = [4, 4, 2] := by
  have hrun : fixed_token_chunk getTok text doc_id cfg =
      Except.ok (fixedTokenPass (getTok m p) m cfg.fixed_chunk_size
        (splitextRoot doc_id) doc_id text) := by
    rcases hrec with ⟨hp, hm⟩ | ⟨hp, hm⟩
    · subst hp
      obtain ⟨tl, hhf⟩ : ∃ tl, cfg.huggingface = m :: tl := by
        cases h : cfg.huggingface with
        | nil => rw [h] at hm; cases hm
        | cons a tl =>
            rw [h] at hm
            simp only [List.head?_cons, Option.some.injEq] at hm
            exact ⟨tl, by rw [← hm]⟩
      unfold fixed_token_chunk
      rw [hemb]
      exact ftLoop_single_hf getTok text doc_id cfg m tl mo hhf
    · subst hp
      obtain ⟨tl, hoa⟩ : ∃ tl, cfg.openai = m :: tl := by
        cases h : cfg.openai with
        | nil => rw [h] at hm; cases hm
        | cons a tl =>
            rw [h] at hm
            simp only [List.head?_cons, Option.some.injEq] at hm
            exact ⟨tl, by rw [← hm]⟩
      unfold fixed_token_chunk
      rw [hemb]
      exact ftLoop_single_oai getTok text doc_id cfg m tl mo hoa
  refine ⟨_, hrun, rfl, idChunks_flatten _ hmax _,
    idChunks_dropLast_length _ hmax _, idChunks_length_bounds _ hmax _,
    ?_, by decide⟩
  unfold fixedTokenPass
  exact emitTokenChunks_map_tokens _ _ _ _ _ _ _ _ _

/-- Witness for C1 at a concrete tokenizer, text and configuration. -/
theorem fixed_token_partition_witness :
    ∃ chunks : List Chunk,
      fixed_token_chunk (fun _ _ => tokA) "hello world" "d.txt" cfgW =
        Except.ok chunks ∧
      (idChunks (tokA.encode "hello world") cfgW.fixed_chunk_size).flatten
        = tokA.encode "hello world" := by
  obtain ⟨chunks, h1, _, h3, _⟩ :=
    fixed_token_partition (fun _ _ => tokA) "hello world" "d.txt" "bge"
      "huggingface" cfgW (some "bge") (by decide) rfl (Or.inl ⟨rfl, rfl⟩)
  exact ⟨chunks, h1, h3⟩

/-! ## Helper lemmas: decimal chunk ids -/

theorem decDigits_eq_digits : ∀ fuel n, n ≤ fuel →
    decDigits fuel n = Nat.digits 10 n := by
  intro fuel
  induction fuel with
  | zero =>
      intro n h
      have : n = 0 := Nat.le_zero.mp h
      subst this
      simp [decDigits]
  | succ f ih =>
      intro n h
      match n with
      | 0 => simp [decDigits]
      | k + 1 =>
          rw [decDigits, ih ((k + 1) / 10) ?_,
            Nat.digits_def' (by norm_num : (1 : ℕ) < 10) (Nat.succ_pos k)]
          have : (k + 1) / 10 < k + 1 := Nat.div_lt_self (Nat.succ_pos k) (by norm_num)
          omega

theorem digitChar10_inj10 : ∀ d < 10, ∀ e < 10,
    digitChar10 d = digitChar10 e → d = e := by decide

theorem map_digitChar10_inj : ∀ l1 l2 : List Nat,
    (∀ d ∈ l1, d < 10) → (∀ d ∈ l2, d < 10) →
    l1.map digitChar10 = l2.map digitChar10 → l1 = l2 := by
  intro l1
  induction l1 with
  | nil =>
      intro l2 _ _ h
      cases l2 with
      | nil => rfl
      | cons b l2 => simp at h
  | cons a l ih =>
      intro l2 h1 h2 h
      cases l2 with
      | nil => simp at h
      | cons b l2 =>
          simp only [List.map_cons, List.cons.injEq] at h
          have hab : a = b :=
            digitChar10_inj10 a (h1 a (List.mem_cons_self a l))
              b (h2 b (List.mem_cons_self b l2)) h.1
          have hl : l = l2 :=
            ih l2 (fun d hd => h1 d (List.mem_cons_of_mem a hd))
              (fun d hd => h2 d (List.mem_cons_of_mem b hd)) h.2
          rw [hab, hl]

theorem digits10_bounds (n : Nat) : ∀ d ∈ (Nat.digits 10 n).reverse, d < 10 := by
  intro d hd
  exact Nat.digits_lt_base (by norm_num) (List.mem_reverse.mp hd)

theorem natDecimal_eq_zero_iff (n : Nat) (h : natDecimal n = "0") : n = 0 := by
  by_contra hn
  unfold natDecimal at h
  rw [if_neg hn] at h
  have hd0 : (['0'] : List Char) = (decDigits n n).reverse.map digitChar10 :=
    congrArg String.data h.symm
  have hd : ((decDigits n n).reverse.map digitChar10) = ['0'] := hd0.symm
  rw [decDigits_eq_digits n n le_rfl] at hd
  have h0 : ('0' :: []) = ([0] : List Nat).map digitChar10 := rfl
  rw [h0] at hd
  have heq : (Nat.digits 10 n).reverse = [0] :=
    map_digitChar10_inj _ _ (digits10_bounds n) (by decide) hd
  have hdig : Nat.digits 10 n = [0] := by
    have := congrArg List.reverse heq
    rwa [List.reverse_reverse] at this
  have hof := Nat.ofDigits_digits 10 n
  rw [hdig] at hof
  simp [Nat.ofDigits] at hof
  exact hn hof.symm

theorem natDecimal_injective : Function.Injective natDecimal := by
  intro a b h
  by_cases ha : a = 0 <;> by_cases hb : b = 0
  · rw [ha, hb]
  · subst ha
    have : natDecimal b = "0" := by rw [← h]; rfl
    exact (natDecimal_eq_zero_iff b this).symm
  · subst hb
    have : natDecimal a = "0" := by rw [h]; rfl
    exact natDecimal_eq_zero_iff a this
  · unfold natDecimal at h
    rw [if_neg ha, if_neg hb] at h
    have hd : ((decDigits a a).reverse.map digitChar10)
        = ((decDigits b b).reverse.map digitChar10) := congrArg String.data h
    rw [decDigits_eq_digits a a le_rfl, decDigits_eq_digits b b le_rfl] at hd
    have heq : (Nat.digits 10 a).reverse = (Nat.digits 10 b).reverse :=
      map_digitChar10_inj _ _ (digits10_bounds a) (digits10_bounds b) hd
    have hdig : Nat.digits 10 a = Nat.digits 10 b := by
      have := congrArg List.reverse heq
      rwa [List.reverse_reverse, List.reverse_reverse] at this
    exact Nat.digits.injective 10 hdig

theorem mkChunkId_inj_num (doc code : String) : ∀ {a b : Nat},
    mkChunkId doc code a = mkChunkId doc code b → a = b := by
  intro a b h
  have hd : (doc ++ "_" ++ code ++ "_").data ++ (natDecimal a).data
      = (doc ++ "_" ++ code ++ "_").data ++ (natDecimal b).data :=
    congrArg String.data h
  have : (natDecimal a).data = (natDecimal b).data :=
    List.append_cancel_left hd
  exact natDecimal_injective (String.ext this)

/-! ## Claim C4 -/

/-- C4 counterexample: with more than one embedding model/provider
configured, the `for emb in config["embedding"]` loop of
`fixed_token.py` restarts `idx` at 0 for every pass, so the same
`{doc}_ft_{n}` chunk id is emitted once per configured model and the chunk
ids of one document+strategy chunk set are not unique. -/
theorem fixed_token_chunk_id_duplicate :
    Except.map (List.map Chunk.chunk_id)
      (fixed_token_chunk (fun _ _ => tokB) "t" "d.txt" cfgDup)
      = Except.ok ["d_ft_1", "d_ft_1"] ∧
    ¬ (["d_ft_1", "d_ft_1"] : List String).Nodup := by
  constructor
  · rfl
  · decide

/-! ## Helper lemmas: sliding-window starts -/

theorem swStartsAux_eq_range' (stride : Nat) (hs : 0 < stride) :
    ∀ fuel n start, n - start ≤ fuel →
      swStartsAux fuel n stride start =
        List.range' start ((n - start + stride - 1) / stride) stride := by
  intro fuel
  induction fuel with
  | zero =>
      intro n start h
      have h0 : n - start = 0 := by omega
      rw [h0, Nat.zero_add, Nat.div_eq_of_lt (by omega)]
      simp [swStartsAux]
  | succ f ih =>
      intro n start h
      by_cases hlt : start < n
      · rw [swStartsAux, if_pos hlt]
        have hcnt : (n - start + stride - 1) / stride
            = (n - start - 1) / stride + 1 := by
          have h1 : n - start + stride - 1 = n - start - 1 + stride := by omega
          rw [h1, Nat.add_div_right _ hs]
        rw [hcnt, List.range'_succ]
        congr 1
        rw [ih n (start + stride) (by omega)]
        congr 1
        have h2 : n - (start + stride) = n - start - stride := by omega
        rw [h2]
        exact ceilDiv_drop (n - start) stride hs (by omega)
      · rw [swStartsAux, if_neg hlt]
        have h0 : n - start = 0 := by omega
        rw [h0, Nat.zero_add, Nat.div_eq_of_lt (by omega)]
        simp

theorem swStartsAux_mem (stride : Nat) (hs : 0 < stride) :
    ∀ fuel n start i, n - start ≤ fuel →
      (i ∈ swStartsAux fuel n stride start ↔
        ∃ j, i = start + j * stride ∧ i < n) := by
  intro fuel
  induction fuel with
  | zero =>
      intro n start i h
      simp only [swStartsAux, List.not_mem_nil, false_iff]
      rintro ⟨j, rfl, hlt⟩
      have : start ≤ start + j * stride := Nat.le_add_right _ _
      omega
  | succ f ih =>
      intro n start i h
      by_cases hlt : start < n
      · rw [swStartsAux, if_pos hlt, List.mem_cons, ih n (start + stride) i (by omega)]
        constructor
        · rintro (rfl | ⟨j, rfl, hj⟩)
          · exact ⟨0, by simp, hlt⟩
          · exact ⟨j + 1, by ring, hj⟩
        · rintro ⟨j, rfl, hj⟩
          cases j with
          | zero =>
              left
              simp
          | succ j =>
              right
              exact ⟨j, by ring, hj⟩
      · rw [swStartsAux, if_neg hlt]
        simp only [List.not_mem_nil, false_iff]
        rintro ⟨j, rfl, hj⟩
        have : start ≤ start + j * stride := Nat.le_add_right _ _
        omega

theorem swStarts_eq_range' (n stride : Nat) (hs : 0 < stride) :
    swStarts n stride = List.range' 0 ((n + stride - 1) / stride) stride := by
  unfold swStarts
  rw [swStartsAux_eq_range' stride hs n n 0 (by omega)]
  congr 1

theorem swStarts_mem (n stride : Nat) (hs : 0 < stride) (i : Nat) :
    i ∈ swStarts n stride ↔ ∃ j, i = j * stride ∧ i < n := by
  unfold swStarts
  rw [swStartsAux_mem stride hs n n 0 i (by omega)]
  constructor
  · rintro ⟨j, rfl, hj⟩
    exact ⟨j, by omega, hj⟩
  · rintro ⟨j, rfl, hj⟩
    exact ⟨j, by omega, hj⟩

theorem swStarts_coverage (n stride maxT : Nat) (hs : 0 < stride)
    (hsm : stride ≤ maxT) :
    ∀ j < n, ∃ i ∈ swStarts n stride, i ≤ j ∧ j < i + maxT := by
  intro j hj
  have h1 : j / stride * stride ≤ j := Nat.div_mul_le_self j stride
  have h2 : j % stride < stride := Nat.mod_lt j hs
  have h3 : stride * (j / stride) + j % stride = j := Nat.div_add_mod j stride
  have h4 : stride * (j / stride) = j / stride * stride := Nat.mul_comm _ _
  refine ⟨j / stride * stride, ?_, h1, by omega⟩
  rw [swStarts_mem n stride hs]
  exact ⟨j / stride, rfl, by omega⟩

theorem swLoop_single_hf (getTok : String → String → Tokenizer)
    (text doc_id : String) (cfg : Config) (mpm : List (String × String))
    (m : String) (hlk : (mpm.lookup m).isSome) :
    swLoop getTok text doc_id cfg mpm
        [{ provider := "huggingface", modelOpt := some m }] =
      slidingWindowPass (getTok m "huggingface") m cfg.fixed_chunk_size
        (cfg.fixed_chunk_size - cfg.overlap) (splitextRoot doc_id) doc_id
        text := by
  have hnone : (mpm.lookup m).isNone = false := by
    cases h : mpm.lookup m with
    | none => rw [h] at hlk; cases hlk
    | some v => rfl
  simp [swLoop, hnone]

/-! ## Claim C2 -/

/-- C2: for every token-id sequence of length `N` and every configuration
with `0 ≤ overlap < max_tokens`, the sliding-window chunker emits windows
whose start indices are exactly `0, stride, 2*stride, ...`
(`stride = max_tokens - overlap`) for every start index strictly less than
`N`, each window ending at `min(start + max_tokens, N)`; consequently every
token index in `[0, N)` is covered by at least one emitted window, and 10
ids with `max_tokens = 4` and `overlap = 2` yield 5 windows starting at
indices 0, 2, 4, 6, 8. -/
theorem sliding_window_starts_and_coverage
    (getTok : String → String → Tokenizer) (text doc_id m : String)
    (cfg : Config) (mpm : List (String × String))
    (hlt : cfg.overlap < cfg.fixed_chunk_size)
    (hemb : cfg.embedding = [{ provider := "huggingface", modelOpt := some m }])
    (hlk : (mpm.lookup m).isSome) :
    ∃ chunks : List Chunk,
      sliding_window_chunk getTok text doc_id cfg mpm = Except.ok chunks ∧
      (let ids := (getTok m "huggingface").encode text
       let stride := cfg.fixed_chunk_size - cfg.overlap
       let starts := swStarts ids.length stride
       chunks.map Chunk.text = starts.map
         (fun s => (getTok m "huggingface").decode
           ((ids.drop s).take cfg.fixed_chunk_size)) ∧
       starts = List.range' 0 ((ids.length + stride - 1) / stride) stride ∧
       (∀ i, i ∈ starts ↔ ∃ j, i = j * stride ∧ i < ids.length) ∧
       (∀ s ∈ starts, ((ids.drop s).take cfg.fixed_chunk_size).length
          = min cfg.fixed_chunk_size (ids.length - s)) ∧
       (∀ j < ids.length, ∃ i ∈ starts, i ≤ j ∧ j < i + cfg.fixed_chunk_size)) ∧
      swStarts 10 2 = [0, 2, 4, 6, 8] := by
  have hs : 0 < cfg.fixed_chunk_size - cfg.overlap := by omega
  have hrun : sliding_window_chunk getTok text doc_id cfg mpm =
      Except.ok (slidingWindowPass (getTok m "huggingface") m
        cfg.fixed_chunk_size (cfg.fixed_chunk_size - cfg.overlap)
        (splitextRoot doc_id) doc_id text) := by
    unfold sliding_window_chunk
    rw [if_neg (by omega), hemb,
      swLoop_single_hf getTok text doc_id cfg mpm m hlk]
  refine ⟨_, hrun, ⟨?_, ?_, ?_, ?_, ?_⟩, ?_⟩
  · unfold slidingWindowPass
    rw [emitTokenChunks_map_text, List.map_map]
    rfl
  · exact swStarts_eq_range' _ _ hs
  · intro i
    exact swStarts_mem _ _ hs i
  · intro s hsmem
    rw [List.length_take, List.length_drop]
  · exact swStarts_coverage _ _ _ hs (by omega)
  · rfl

/-- Witness for C2 at a concrete tokenizer, text and configuration
(11 characters encode to 11 ids; `max_tokens = 4`, `overlap = 2`). -/
theorem sliding_window_starts_and_coverage_witness :
    ∃ chunks : List Chunk,
      sliding_window_chunk (fun _ _ => tokA) "hello world" "d.txt" cfgW mpmW
        = Except.ok chunks ∧
      swStarts 10 2 = [0, 2, 4, 6, 8] := by
  obtain ⟨chunks, h1, _, h3⟩ :=
    sliding_window_starts_and_coverage (fun _ _ => tokA) "hello world"
      "d.txt" "bge" cfgW mpmW (by decide) rfl (by decide)
  exact ⟨chunks, h1, h3⟩

/-! ## Helper lemmas: sentence packing -/

theorem sentencePack_flatten (maxT : Nat) : ∀ (rest buf : List (Sent × Nat)) (t : Nat),
    (sentencePack maxT rest buf t).flatten = buf ++ rest := by
  intro rest
  induction rest with
  | nil =>
      intro buf t
      by_cases h : buf = []
      · subst h
        simp [sentencePack]
      · simp [sentencePack, h]
  | cons sc rest ih =>
      intro buf t
      by_cases h : buf ≠ [] ∧ maxT < t + sc.2
      · rw [sentencePack, if_pos h, List.flatten_cons, ih]
        simp
      · rw [sentencePack, if_neg h, ih]
        simp

theorem sentencePack_ne_nil (maxT : Nat) : ∀ (rest buf : List (Sent × Nat)) (t : Nat),
    ∀ b ∈ sentencePack maxT rest buf t, b ≠ [] := by
  intro rest
  induction rest with
  | nil =>
      intro buf t b hb
      by_cases h : buf = []
      · rw [sentencePack, if_pos h] at hb
        cases hb
      · rw [sentencePack, if_neg h] at hb
        rcases List.mem_singleton.mp hb with rfl
        exact h
  | cons sc rest ih =>
      intro buf t b hb
      by_cases h : buf ≠ [] ∧ maxT < t + sc.2
      · rw [sentencePack, if_pos h] at hb
        rcases List.mem_cons.mp hb with rfl | hb
        · exact h.1
        · exact ih [sc] sc.2 b hb
      · rw [sentencePack, if_neg h] at hb
        exact ih (buf ++ [sc]) (t + sc.2) b hb

theorem sumTok_append_single (buf : List (Sent × Nat)) (sc : Sent × Nat) :
    sumTok (buf ++ [sc]) = sumTok buf + sc.2 := by
  simp [sumTok]

theorem sentencePack_budget (maxT : Nat) : ∀ (rest buf : List (Sent × Nat)) (t : Nat),
    t = sumTok buf → (buf.length ≤ 1 ∨ t ≤ maxT) →
    ∀ b ∈ sentencePack maxT rest buf t,
      b.length = 1 ∨ sumTok b ≤ maxT := by
  intro rest
  induction rest with
  | nil =>
      intro buf t ht hlen b hb
      by_cases h : buf = []
      · rw [sentencePack, if_pos h] at hb
        cases hb
      · rw [sentencePack, if_neg h] at hb
        rcases List.mem_singleton.mp hb with rfl
        rcases hlen with hlen | hlen
        · left
          have : 0 < b.length := List.length_pos.mpr h
          omega
        · right
          omega
  | cons sc rest ih =>
      intro buf t ht hlen b hb
      by_cases h : buf ≠ [] ∧ maxT < t + sc.2
      · rw [sentencePack, if_pos h] at hb
        rcases List.mem_cons.mp hb with rfl | hb
        · rcases hlen with hlen | hlen
          · left
            have : 0 < b.length := List.length_pos.mpr h.1
            omega
          · right
            omega
        · exact ih [sc] sc.2 (by simp [sumTok]) (Or.inl (by simp)) b hb
      · rw [sentencePack, if_neg h] at hb
        rcases Decidable.not_and_iff_or_not.mp h with h1 | h2
        · have hbuf : buf = [] := Decidable.not_not.mp h1
          subst hbuf
          have ht0 : t = 0 := by simpa [sumTok] using ht
          subst ht0
          simp only [List.nil_append, Nat.zero_add] at hb
          exact ih [sc] sc.2 (by simp [sumTok]) (Or.inl (by simp)) b hb
        · have hle : t + sc.2 ≤ maxT := Nat.not_lt.mp h2
          exact ih (buf ++ [sc]) (t + sc.2)
            (by rw [sumTok_append_single, ht]) (Or.inr hle) b hb

theorem sentencePack_first_head (maxT : Nat) :
    ∀ (rest buf : List (Sent × Nat)) (t : Nat), buf ≠ [] →
      ∃ b bs, sentencePack maxT rest buf t = b :: bs ∧ b.head? = buf.head? := by
  intro rest
  induction rest with
  | nil =>
      intro buf t h
      rw [sentencePack, if_neg h]
      exact ⟨buf, [], rfl, rfl⟩
  | cons sc rest ih =>
      intro buf t h
      by_cases hcond : buf ≠ [] ∧ maxT < t + sc.2
      · rw [sentencePack, if_pos hcond]
        exact ⟨buf, _, rfl, rfl⟩
      · rw [sentencePack, if_neg hcond]
        obtain ⟨b, bs, heq, hhead⟩ := ih (buf ++ [sc]) (t + sc.2) (by simp)
        refine ⟨b, bs, heq, ?_⟩
        rw [hhead]
        cases buf with
        | nil => exact absurd rfl h
        | cons x xs => rfl

theorem sentencePack_chain (maxT : Nat) : ∀ (rest buf : List (Sent × Nat)) (t : Nat),
    t = sumTok buf →
    List.Chain' (fun b₁ b₂ => ∀ sc ∈ b₂.head?, maxT < sumTok b₁ + sc.2)
      (sentencePack maxT rest buf t) := by
  intro rest
  induction rest with
  | nil =>
      intro buf t ht
      by_cases h : buf = []
      · rw [sentencePack, if_pos h]
        exact List.chain'_nil
      · rw [sentencePack, if_neg h]
        exact List.chain'_singleton _
  | cons sc rest ih =>
      intro buf t ht
      by_cases h : buf ≠ [] ∧ maxT < t + sc.2
      · rw [sentencePack, if_pos h]
        obtain ⟨b, bs, heq, hhead⟩ :=
          sentencePack_first_head maxT rest [sc] sc.2 (by simp)
        rw [heq, List.chain'_cons]
        constructor
        · intro sc' hsc'
          rw [hhead] at hsc'
          simp only [List.head?_cons, Option.mem_def, Option.some.injEq] at hsc'
          subst hsc'
          rw [← ht]
          exact h.2
        · have := ih [sc] sc.2 (by simp [sumTok])
          rwa [heq] at this
      · rw [sentencePack, if_neg h]
        exact ih (buf ++ [sc]) (t + sc.2) (by rw [sumTok_append_single, ht])

theorem mapCounts_ok (getCounts : String → List (String × Nat)) :
    ∀ sents : List Sent, (∀ s ∈ sents, getCounts s.text ≠ []) →
      mapCounts getCounts sents =
        Except.ok (sents.map (fun s => (s, maxCount getCounts s.text))) := by
  intro sents
  induction sents with
  | nil => intro _; rfl
  | cons s rest ih =>
      intro h
      have hs : getCounts s.text ≠ [] := h s (List.mem_cons_self s rest)
      have hmax : pyMax ((getCounts s.text).map Prod.snd)
          = Except.ok (maxCount getCounts s.text) := by
        cases hc : getCounts s.text with
        | nil => exact absurd hc hs
        | cons p l => simp [pyMax, maxCount, hc]
      rw [mapCounts, hmax, ih (fun s hs => h s (List.mem_cons_of_mem _ hs))]
      simp [Bind.bind, Except.bind, Pure.pure, Except.pure]

/-! ## Claim C3 -/

/-- C3: for every ordered sentence list produced by the segmenter and every
`max_tokens_per_chunk`, the sentence-aware chunker partitions the
sentences: the concatenation of the chunks' sentence sequences, in emission
order, equals the full ordered sentence list, no sentence appears in two
chunks, and no chunk's accumulated sentence token count (the maximum count
across configured models, summed over buffered sentences) exceeds the
budget except possibly a chunk consisting of a single over-budget sentence;
a chunk is closed exactly when the buffer is non-empty and adding the next
sentence's token count would exceed the budget (consecutive chunks satisfy
the overflow relation), and any remaining buffered sentences are flushed as
a final chunk. -/
theorem sentence_aware_partition (segment : String → List Sent)
    (getCounts : String → List (String × Nat)) (text doc_id : String)
    (cfg : Config)
    (hc : ∀ s ∈ segment text, getCounts s.text ≠ []) :
    ∃ (scs : List (Sent × Nat)) (bufs : List (List (Sent × Nat)))
      (chunks : List Chunk),
      mapCounts getCounts (segment text) = Except.ok scs ∧
      scs = (segment text).map (fun s => (s, maxCount getCounts s.text)) ∧
      bufs = sentencePack cfg.sentence_max_tokens scs [] 0 ∧
      sentence_aware_chunk segment getCounts text doc_id cfg
        = Except.ok chunks ∧
      chunks = bufs.enum.map (fun p => mkSentChunk getCounts doc_id p.1 p.2) ∧
      bufs.flatten = scs ∧
      (bufs.map (List.map Prod.fst)).flatten = segment text ∧
      (∀ b ∈ bufs, b ≠ []) ∧
      (∀ b ∈ bufs, b.length = 1 ∨ sumTok b ≤ cfg.sentence_max_tokens) ∧
      List.Chain' (fun b₁ b₂ => ∀ sc ∈ b₂.head?,
        cfg.sentence_max_tokens < sumTok b₁ + sc.2) bufs := by
  have hmc := mapCounts_ok getCounts (segment text) hc
  have hflat : (sentencePack cfg.sentence_max_tokens
      ((segment text).map (fun s => (s, maxCount getCounts s.text))) [] 0).flatten
      = (segment text).map (fun s => (s, maxCount getCounts s.text)) := by
    rw [sentencePack_flatten]
    rfl
  refine ⟨_, _, _, hmc, rfl, rfl, ?_, rfl, hflat, ?_, ?_, ?_, ?_⟩
  · unfold sentence_aware_chunk
    rw [hmc]
    rfl
  · rw [← List.map_flatten, hflat, List.map_map]
    have h1 : List.map (Prod.fst ∘ fun s => (s, maxCount getCounts s.text))
        (segment text) = List.map id (segment text) :=
      List.map_congr_left (fun a _ => rfl)
    rw [h1, List.map_id]
  · exact sentencePack_ne_nil _ _ _ _
  · exact sentencePack_budget _ _ _ _ (by simp [sumTok]) (Or.inl (by simp))
  · exact sentencePack_chain _ _ _ _ (by simp [sumTok])

/-- Witness for C3 at a concrete segmenter, counter and configuration. -/
theorem sentence_aware_partition_witness :
    ∃ (scs : List (Sent × Nat)) (bufs : List (List (Sent × Nat)))
      (chunks : List Chunk),
      mapCounts countsW (segW "T") = Except.ok scs ∧
      sentence_aware_chunk segW countsW "T" "d" cfgSA = Except.ok chunks ∧
      bufs = sentencePack cfgSA.sentence_max_tokens scs [] 0 ∧
      bufs.flatten = scs := by
  obtain ⟨scs, bufs, chunks, h1, _, h3, h4, _, h6, _⟩ :=
    sentence_aware_partition segW countsW "T" "d" cfgSA (by decide)
  exact ⟨scs, bufs, chunks, h1, h4, h3, h6⟩

/-! ## Claim C4 (amended): per-pass chunk ids for all three chunkers -/

theorem enum_map_fst_fun {α β : Type} (l : List α) (g : Nat → β) :
    l.enum.map (fun p => g p.1) = (List.range l.length).map g := by
  rw [← List.enum_map_fst l, List.map_map]
  rfl

theorem mkChunkId_range_nodup (doc code : String) (n : Nat) :
    ((List.range n).map (fun i => mkChunkId doc code (i + 1))).Nodup := by
  refine List.Nodup.map ?_ (List.nodup_range _)
  intro i j hij
  have := mkChunkId_inj_num doc code hij
  omega

theorem emit_ids_range (decode : List Nat → String)
    (doc source model st code : String) (ws : List (List Nat)) :
    (emitTokenChunks decode doc source model st code 0 0 ws).map Chunk.chunk_id
      = (List.range
          (emitTokenChunks decode doc source model st code 0 0 ws).length).map
          (fun i => mkChunkId doc code (i + 1)) := by
  rw [emitTokenChunks_map_chunk_id, emitTokenChunks_length]
  apply List.map_congr_left
  intro i hi
  congr 1
  omega

/-- C4 (amended): each chunker numbers its chunk ids
`{doc}_{strategy_code}_{sequence_number}` with the sequence starting at 1
and incrementing in emission order within one model/provider pass (codes
`ft` and `sw` on the splitext root of the document id for the token-based
chunkers, `chunk` on the raw document id for the sentence-aware chunker),
and within one pass the ids are unique; the token-based chunkers restart
the sequence for every configured embedding entry (the counterexample shows
`fixed_token` emitting the same id twice with two configured providers),
while the sentence-aware chunker makes a single pass and its ids stay
unique no matter how many models are configured. -/
theorem chunk_ids_per_pass (getTok : String → String → Tokenizer)
    (segment : String → List Sent) (getCounts : String → List (String × Nat))
    (text doc_id m : String) (cfg : Config) (mo : Option String)
    (mpm : List (String × String)) :
    ((cfg.embedding = [{ provider := "huggingface", modelOpt := mo }] ∧
        cfg.huggingface.head? = some m) →
      ∃ chunks : List Chunk,
        fixed_token_chunk getTok text doc_id cfg = Except.ok chunks ∧
        chunks.map Chunk.chunk_id =
          (List.range chunks.length).map
            (fun i => mkChunkId (splitextRoot doc_id) "ft" (i + 1)) ∧
        (chunks.map Chunk.chunk_id).Nodup) ∧
    ((cfg.overlap < cfg.fixed_chunk_size ∧
        cfg.embedding = [{ provider := "huggingface", modelOpt := some m }] ∧
        (mpm.lookup m).isSome) →
      ∃ chunks : List Chunk,
        sliding_window_chunk getTok text doc_id cfg mpm = Except.ok chunks ∧
        chunks.map Chunk.chunk_id =
          (List.range chunks.length).map
            (fun i => mkChunkId (splitextRoot doc_id) "sw" (i + 1)) ∧
        (chunks.map Chunk.chunk_id).Nodup) ∧
    ((∀ s ∈ segment text, getCounts s.text ≠ []) →
      ∃ chunks : List Chunk,
        sentence_aware_chunk segment getCounts text doc_id cfg
          = Except.ok chunks ∧
        chunks.map Chunk.chunk_id =
          (List.range chunks.length).map
            (fun i => mkChunkId doc_id "chunk" (i + 1)) ∧
        (chunks.map Chunk.chunk_id).Nodup) := by
  refine ⟨?_, ?_, ?_⟩
  · rintro ⟨hemb, hm⟩
    obtain ⟨tl, hhf⟩ : ∃ tl, cfg.huggingface = m :: tl := by
      cases h : cfg.huggingface with
      | nil => rw [h] at hm; cases hm
      | cons a tl =>
          rw [h] at hm
          simp only [List.head?_cons, Option.some.injEq] at hm
          exact ⟨tl, by rw [← hm]⟩
    have hrun : fixed_token_chunk getTok text doc_id cfg =
        Except.ok (fixedTokenPass (getTok m "huggingface") m
          cfg.fixed_chunk_size (splitextRoot doc_id) doc_id text) := by
      unfold fixed_token_chunk
      rw [hemb]
      exact ftLoop_single_hf getTok text doc_id cfg m tl mo hhf
    refine ⟨_, hrun, ?_, ?_⟩
    · unfold fixedTokenPass
      exact emit_ids_range _ _ _ _ _ _ _
    · unfold fixedTokenPass
      rw [emit_ids_range]
      exact mkChunkId_range_nodup _ _ _
  · rintro ⟨hlt, hemb, hlk⟩
    have hrun : sliding_window_chunk getTok text doc_id cfg mpm =
        Except.ok (slidingWindowPass (getTok m "huggingface") m
          cfg.fixed_chunk_size (cfg.fixed_chunk_size - cfg.overlap)
          (splitextRoot doc_id) doc_id text) := by
      unfold sliding_window_chunk
      rw [if_neg (by omega), hemb,
        swLoop_single_hf getTok text doc_id cfg mpm m hlk]
    refine ⟨_, hrun, ?_, ?_⟩
    · unfold slidingWindowPass
      exact emit_ids_range _ _ _ _ _ _ _
    · unfold slidingWindowPass
      rw [emit_ids_range]
      exact mkChunkId_range_nodup _ _ _
  · intro hc
    have hmc := mapCounts_ok getCounts (segment text) hc
    have hrun : sentence_aware_chunk segment getCounts text doc_id cfg
        = Except.ok ((sentencePack cfg.sentence_max_tokens
            ((segment text).map (fun s => (s, maxCount getCounts s.text)))
            [] 0).enum.map
              (fun p => mkSentChunk getCounts doc_id p.1 p.2)) := by
      unfold sentence_aware_chunk
      rw [hmc]
      rfl
    have hstep : ((sentencePack cfg.sentence_max_tokens
          ((segment text).map (fun s => (s, maxCount getCounts s.text)))
          [] 0).enum.map
            (fun p => mkSentChunk getCounts doc_id p.1 p.2)).map Chunk.chunk_id
        = (sentencePack cfg.sentence_max_tokens
            ((segment text).map (fun s => (s, maxCount getCounts s.text)))
            [] 0).enum.map
              (fun p => mkChunkId doc_id "chunk" (p.1 + 1)) := by
      rw [List.map_map]
      rfl
    have hfst := enum_map_fst_fun (sentencePack cfg.sentence_max_tokens
      ((segment text).map (fun s => (s, maxCount getCounts s.text))) [] 0)
      (fun i => mkChunkId doc_id "chunk" (i + 1))
    refine ⟨_, hrun, ?_, ?_⟩
    · rw [hstep, hfst]
      congr 2
      simp [List.enum_length]
    · rw [hstep, hfst]
      exact mkChunkId_range_nodup _ _ _

/-- Witness for the amended C4: all three chunkers at concrete inputs emit
1-based, in-order, duplicate-free chunk ids within their single pass. -/
theorem chunk_ids_per_pass_witness :
    (∃ chunks : List Chunk,
      fixed_token_chunk (fun _ _ => tokA) "hello world" "d.txt" cfgW
        = Except.ok chunks ∧
      chunks.map Chunk.chunk_id =
        (List.range chunks.length).map
          (fun i => mkChunkId (splitextRoot "d.txt") "ft" (i + 1)) ∧
      (chunks.map Chunk.chunk_id).Nodup) ∧
    (∃ chunks : List Chunk,
      sliding_window_chunk (fun _ _ => tokA) "hello world" "d.txt" cfgW mpmW
        = Except.ok chunks ∧
      chunks.map Chunk.chunk_id =
        (List.range chunks.length).map
          (fun i => mkChunkId (splitextRoot "d.txt") "sw" (i + 1)) ∧
      (chunks.map Chunk.chunk_id).Nodup) ∧
    (∃ chunks : List Chunk,
      sentence_aware_chunk segW countsW "hello world" "d.txt" cfgW
        = Except.ok chunks ∧
      chunks.map Chunk.chunk_id =
        (List.range chunks.length).map
          (fun i => mkChunkId "d.txt" "chunk" (i + 1)) ∧
      (chunks.map Chunk.chunk_id).Nodup) := by
  obtain ⟨h1, h2, h3⟩ := chunk_ids_per_pass (fun _ _ => tokA) segW countsW
    "hello world" "d.txt" "bge" cfgW (some "bge") mpmW
  exact ⟨h1 ⟨rfl, rfl⟩, h2 ⟨by decide, rfl, by decide⟩, h3 (by decide)⟩

/-! ## Claim C5 -/

/-- C5 counterexample: for the recognized name `fixed_token` the router
returns the local placeholder's empty list, not the output of the real
fixed-token chunker, which on the same inputs emits a non-empty chunk
list. -/
theorem chunk_router_stub_counterexample :
    ChunkRouter.chunk segW countsW "hello" "d.txt" cfgW mpmW
      = Except.ok ([] : List Chunk) ∧
    Except.map (List.map Chunk.chunk_id)
      (fixed_token_chunk (fun _ _ => tokA) "hello" "d.txt" cfgW)
      = Except.ok ["d_ft_1", "d_ft_2"] ∧
    List.map Chunk.chunk_id ([] : List Chunk) ≠ ["d_ft_1", "d_ft_2"] := by
  refine ⟨rfl, rfl, by decide⟩

/-- C5 (amended): the router dispatches on the strategy name and raises
`ValueError` (the `InvalidStrategyError` of the design) for every
unrecognized name, but only the `sentence_aware` branch invokes the real
chunker with the normalized argument set; `fixed_token` and
`sliding_window` are routed to local placeholder functions that ignore the
document id and model map and return the empty list. -/
theorem chunk_router_dispatch (segment : String → List Sent)
    (getCounts : String → List (String × Nat)) (text doc_id : String)
    (cfg : Config) (mpm : List (String × String)) :
    (cfg.chunking_strategy = "fixed_token" →
      ChunkRouter.chunk segment getCounts text doc_id cfg mpm
        = Except.ok (ChunkRouter.fixed_token_chunk text cfg) ∧
      ChunkRouter.fixed_token_chunk text cfg = []) ∧
    (cfg.chunking_strategy = "sliding_window" →
      ChunkRouter.chunk segment getCounts text doc_id cfg mpm
        = Except.ok (ChunkRouter.sliding_window_chunk text cfg) ∧
      ChunkRouter.sliding_window_chunk text cfg = []) ∧
    (cfg.chunking_strategy = "sentence_aware" →
      ChunkRouter.chunk segment getCounts text doc_id cfg mpm
        = sentence_aware_chunk segment getCounts text doc_id cfg) ∧
    (cfg.chunking_strategy ∉
        (["fixed_token", "sliding_window", "sentence_aware"] : List String) →
      ChunkRouter.chunk segment getCounts text doc_id cfg mpm
        = Except.error ("Invalid chunking strategy: " ++ cfg.chunking_strategy)) := by
  refine ⟨?_, ?_, ?_, ?_⟩
  · intro h
    unfold ChunkRouter.chunk
    rw [if_pos h]
    exact ⟨rfl, rfl⟩
  · intro h
    unfold ChunkRouter.chunk
    rw [if_neg (by rw [h]; decide), if_pos h]
    exact ⟨rfl, rfl⟩
  · intro h
    unfold ChunkRouter.chunk
    rw [if_neg (by rw [h]; decide), if_neg (by rw [h]; decide), if_pos h]
  · intro h
    simp only [List.mem_cons, not_or] at h
    obtain ⟨h1, h2, h3, -⟩ := h
    unfold ChunkRouter.chunk
    rw [if_neg h1, if_neg h2, if_neg h3]

/-- Witness for the amended C5: the sentence-aware branch really forwards
to the sentence-aware chunker at a concrete configuration. -/
theorem chunk_router_dispatch_witness :
    ChunkRouter.chunk segW countsW "T" "d" cfgSA mpmW =
      sentence_aware_chunk segW countsW "T" "d" cfgSA :=
  ((chunk_router_dispatch segW countsW "T" "d" cfgSA mpmW).2.2.1) rfl

/-! ## Helper lemmas: gold-answer mapping -/

theorem find?_first {α : Type} (p : α → Bool) :
    ∀ (pre : List α) (c : α) (post : List α),
      (∀ x ∈ pre, p x = false) → p c = true →
      List.find? p (pre ++ c :: post) = some c := by
  intro pre
  induction pre with
  | nil =>
      intro c post _ hc
      rw [List.nil_append]
      exact List.find?_cons_of_pos _ hc
  | cons a pre ih =>
      intro c post hpre hc
      rw [List.cons_append,
        List.find?_cons_of_neg _ (by simp [hpre a (List.mem_cons_self a pre)])]
      exact ih c post (fun x hx => hpre x (List.mem_cons_of_mem a hx)) hc

theorem ansMatches_false_of_no_contain (qa : QAPair) (c : Chunk)
    (h : pyIn (Querier.normalize qa.answer).data
      (Querier.normalize c.text).data = false) :
    ansMatches qa c = false := by
  simp [ansMatches, h]

/-! ## Claim C9 -/

/-- C9: for every QAPair whose answer normalizes to the empty string (the
answer consists only of punctuation and whitespace), the gold-answer mapper
emits no GoldLabel for that QAPair, even though the empty string is a
substring of every chunk's normalized text. -/
theorem mapper_drops_empty_answers (qa : QAPair) (qas : List QAPair)
    (chunks : List Chunk) (hempty : Querier.normalize qa.answer = "") :
    map_answers_to_chunks (qa :: qas) chunks
      = map_answers_to_chunks qas chunks ∧
    ∀ c ∈ chunks, pyIn (Querier.normalize qa.answer).data
      (Querier.normalize c.text).data = true := by
  constructor
  · unfold map_answers_to_chunks
    refine List.filterMap_cons_none ?_
    have hnone : chunks.find? (fun c => ansMatches qa c) = none := by
      rw [List.find?_eq_none]
      intro c _
      simp [ansMatches, hempty]
    rw [hnone]
    rfl
  · intro c _
    rw [hempty]
    cases h : (Querier.normalize c.text).data with
    | nil => rfl
    | cons a l => rfl

/-- Witness for C9: an answer consisting only of punctuation yields no
gold label even though every chunk trivially contains its normalization. -/
theorem mapper_drops_empty_answers_witness :
    map_answers_to_chunks [{ question := "q", answer := "!?" }] [chunkA, chunkB]
      = map_answers_to_chunks [] [chunkA, chunkB] ∧
    ∀ c ∈ [chunkA, chunkB],
      pyIn (Querier.normalize (QAPair.mk "q" "!?").answer).data
        (Querier.normalize c.text).data = true :=
  mapper_drops_empty_answers { question := "q", answer := "!?" } [] [chunkA, chunkB]
    (by decide)

/-! ## Claim C6 -/

/-- C6 counterexample: a QAPair whose answer normalizes to the empty string
gets no GoldLabel even though the first chunk's normalized text contains
the normalized answer (the empty string) as a substring, contradicting the
claim that a GoldLabel referencing the first containing chunk is always
emitted. -/
theorem mapper_empty_answer_counterexample :
    map_answers_to_chunks [{ question := "q", answer := "." }] [chunkA] = [] ∧
    pyIn (Querier.normalize ".").data (Querier.normalize chunkA.text).data
      = true := by
  exact ⟨rfl, rfl⟩

/-- C6 (amended): for every QAPair whose answer has a non-empty
normalization, the mapper emits one GoldLabel referencing the chunk_id of
the first chunk, in emission order, whose normalized text contains the
normalized answer as a substring, and emits nothing for that QAPair when no
chunk's normalized text contains it (no error is raised); a QAPair whose
answer normalizes to the empty string is dropped (see C9). -/
theorem mapper_first_match (qa : QAPair) (qas : List QAPair)
    (chunks pre post : List Chunk) (c : Chunk)
    (hnz : Querier.normalize qa.answer ≠ "") :
    (chunks = pre ++ c :: post →
      (∀ c' ∈ pre, pyIn (Querier.normalize qa.answer).data
        (Querier.normalize c'.text).data = false) →
      pyIn (Querier.normalize qa.answer).data
        (Querier.normalize c.text).data = true →
      map_answers_to_chunks (qa :: qas) chunks =
        { question := qa.question, gold_chunk_id := c.chunk_id,
          strategy := c.strategy, source := c.source }
          :: map_answers_to_chunks qas chunks) ∧
    ((∀ c' ∈ chunks, pyIn (Querier.normalize qa.answer).data
        (Querier.normalize c'.text).data = false) →
      map_answers_to_chunks (qa :: qas) chunks
        = map_answers_to_chunks qas chunks) := by
  constructor
  · intro hchunks hpre hc
    subst hchunks
    unfold map_answers_to_chunks
    refine List.filterMap_cons_some ?_
    have hfind : (pre ++ c :: post).find? (fun x => ansMatches qa x) = some c := by
      refine find?_first _ pre c post ?_ ?_
      · intro x hx
        exact ansMatches_false_of_no_contain qa x (hpre x hx)
      · simp [ansMatches, hnz, hc]
    rw [hfind]
    rfl
  · intro hall
    unfold map_answers_to_chunks
    refine List.filterMap_cons_none ?_
    have hnone : chunks.find? (fun x => ansMatches qa x) = none := by
      rw [List.find?_eq_none]
      intro x hx
      simp [ansMatches_false_of_no_contain qa x (hall x hx)]
    rw [hnone]
    rfl

/-- Witness for the amended C6 at concrete chunks: the answer "beta" is
contained in the first chunk's normalized text and the emitted gold label
references that chunk. -/
theorem mapper_first_match_witness :
    map_answers_to_chunks [{ question := "q", answer := "Beta" }]
        [chunkA, chunkB] =
      [{ question := "q", gold_chunk_id := chunkA.chunk_id,
         strategy := chunkA.strategy, source := chunkA.source }] := by
  have h := (mapper_first_match { question := "q", answer := "Beta" } []
    [chunkA, chunkB] [] [chunkB] chunkA (by decide)).1 rfl
    (by intro c' hc'; cases hc') (by decide)
  exact h

/-! ## Helper lemmas: the evaluator hit scan and aggregation -/

theorem scanHits_append (gold strat : String) (h : Hit) (m : Metrics) :
    ∀ (pre post : List Hit) (r : Nat),
      (∀ h' ∈ pre, effChunkId h' ≠ gold) → effChunkId h = gold →
      scanHits gold strat r (pre ++ h :: post) m
        = applyFound m strat (r + pre.length) h := by
  intro pre
  induction pre with
  | nil =>
      intro post r _ hh
      rw [List.nil_append, scanHits, if_pos hh]
      simp
  | cons a pre ih =>
      intro post r hpre hh
      rw [List.cons_append, scanHits,
        if_neg (hpre a (List.mem_cons_self a pre)),
        ih post (r + 1) (fun x hx => hpre x (List.mem_cons_of_mem a hx)) hh]
      congr 1
      simp only [List.length_cons]
      omega

theorem scanHits_no_match (gold strat : String) (m : Metrics) :
    ∀ (hits : List Hit) (r : Nat), (∀ h' ∈ hits, effChunkId h' ≠ gold) →
      scanHits gold strat r hits m = m := by
  intro hits
  induction hits with
  | nil => intro r _; rfl
  | cons a hits ih =>
      intro r hall
      rw [scanHits, if_neg (hall a (List.mem_cons_self a hits))]
      exact ih (r + 1) (fun x hx => hall x (List.mem_cons_of_mem a hx))

theorem finalizeStrat_ok (p : String × StratMetrics) :
    ∃ q, finalizeStrat p = Except.ok q := by
  unfold finalizeStrat
  by_cases h : 0 < p.2.total
  · have hz : (p.2.total : ℚ) ≠ 0 := Nat.cast_ne_zero.mpr (by omega)
    rw [if_pos h]
    refine ⟨(p.1,
      { p.2 with
        recall_at_k := (p.2.found_in_top_k : ℚ) / (p.2.total : ℚ)
        mean_reciprocal_rank := p.2.mean_reciprocal_rank / (p.2.total : ℚ)
        avg_latency_ms := some (p.2.total_latency_ms / (p.2.total : ℚ)) }), ?_⟩
    simp only [pyDiv, if_neg hz, Bind.bind, Except.bind, Pure.pure, Except.pure]
  · rw [if_neg h]
    exact ⟨p, rfl⟩

theorem finalizeStrats_ok : ∀ l : List (String × StratMetrics),
    ∃ l', finalizeStrats l = Except.ok l' := by
  intro l
  induction l with
  | nil => exact ⟨[], rfl⟩
  | cons p rest ih =>
      obtain ⟨q, hq⟩ := finalizeStrat_ok p
      obtain ⟨l', hl'⟩ := ih
      refine ⟨q :: l', ?_⟩
      rw [finalizeStrats, hq, hl']
      rfl

/-! ## Claim C10 -/

/-- C10: for every gold label and every ranked hit list, the evaluator
scans hits in rank order and stops at the first hit whose chunk_id equals
the gold chunk_id, so `found_in_top_k`, the rank distribution and the
reciprocal-rank sum each receive at most one contribution per question,
taken at the smallest rank, even when the gold chunk_id occurs at multiple
ranks in the hit list; when no hit matches, the metrics are unchanged. -/
theorem evaluator_first_match (m : Metrics) (gold strat : String)
    (pre post : List Hit) (h : Hit)
    (hpre : ∀ h' ∈ pre, effChunkId h' ≠ gold) (hh : effChunkId h = gold) :
    scanHits gold strat 1 (pre ++ h :: post) m
      = applyFound m strat (pre.length + 1) h ∧
    (applyFound m strat (pre.length + 1) h).found_in_top_k
      = m.found_in_top_k + 1 ∧
    (applyFound m strat (pre.length + 1) h).rank_distribution
      = bumpRank m.rank_distribution (pre.length + 1) ∧
    (applyFound m strat (pre.length + 1) h).mean_reciprocal_rank
      = m.mean_reciprocal_rank + 1 / ((pre.length + 1 : Nat) : ℚ) ∧
    ∀ hits : List Hit, (∀ h' ∈ hits, effChunkId h' ≠ gold) →
      scanHits gold strat 1 hits m = m := by
  refine ⟨?_, rfl, rfl, rfl, ?_⟩
  · rw [scanHits_append gold strat h m pre post 1 hpre hh]
    congr 1
    omega
  · intro hits hall
    exact scanHits_no_match gold strat m hits 1 hall

/-- Witness for C10 at concrete hits where the gold chunk id occurs at
ranks 2 and 3: the scan contributes exactly once, at rank 2. -/
theorem evaluator_first_match_witness :
    scanHits "g1" "fixed_token" 1 [hitA, hitG, hitG2] mW
      = applyFound mW "fixed_token" ((List.length [hitA]) + 1) hitG :=
  (evaluator_first_match mW "g1" "fixed_token" [hitA] [hitG2] hitG
    (by decide) (by decide)).1

/-! ## Claim C7 -/

/-- C7: after the evaluator processes all gold labels, `recall_at_k` equals
`found_in_top_k` divided by the total number of labels and the accumulated
reciprocal-rank sum is divided by the total number of labels to give
`mean_reciprocal_rank`; when the total number of labels is zero, the
evaluation short-circuits to a defined-zero result
(`recall_at_k = 0.0`, `mean_reciprocal_rank = 0.0`) rather than raising a
division-by-zero error. -/
theorem evaluator_aggregation (m : Metrics) :
    (0 < m.total_questions →
      ∃ m', finalizeMetrics m = Except.ok m' ∧
        m'.recall_at_k = (m.found_in_top_k : ℚ) / (m.total_questions : ℚ) ∧
        m'.mean_reciprocal_rank
          = m.mean_reciprocal_rank / (m.total_questions : ℚ)) ∧
    (m.total_questions = 0 → finalizeMetrics m = Except.ok m) ∧
    evaluate_retrieval embedFailW searchW 5 [] = Except.ok initMetrics ∧
    initMetrics.recall_at_k = 0 ∧ initMetrics.mean_reciprocal_rank = 0 := by
  refine ⟨?_, ?_, rfl, rfl, rfl⟩
  · intro h
    have hz : (m.total_questions : ℚ) ≠ 0 := Nat.cast_ne_zero.mpr (by omega)
    obtain ⟨bs, hbs⟩ := finalizeStrats_ok m.by_strategy
    refine ⟨{ m with
      recall_at_k := (m.found_in_top_k : ℚ) / (m.total_questions : ℚ)
      mean_reciprocal_rank := m.mean_reciprocal_rank / (m.total_questions : ℚ)
      avg_latency_ms := some (m.total_latency_ms / (m.total_questions : ℚ))
      by_strategy := bs }, ?_, rfl, rfl⟩
    unfold finalizeMetrics
    rw [if_pos h]
    simp only [pyDiv, if_neg hz, hbs, Bind.bind, Except.bind, Pure.pure,
      Except.pure]
  · intro h
    unfold finalizeMetrics
    rw [if_neg (by omega)]
    rfl

/-- Witness for C7 at a concrete metrics record with two counted
questions. -/
theorem evaluator_aggregation_witness :
    ∃ m', finalizeMetrics mW = Except.ok m' ∧
      m'.recall_at_k = (mW.found_in_top_k : ℚ) / (mW.total_questions : ℚ) ∧
      m'.mean_reciprocal_rank
        = mW.mean_reciprocal_rank / (mW.total_questions : ℚ) :=
  (evaluator_aggregation mW).1 (by decide)

/-! ## Claim C8 -/

/-- C8: the per-question loop of `evaluate_retrieval` wraps neither the
embedding call nor the search call in a handler, so the first collaborator
failure propagates and aborts the whole evaluation with no metrics at all
(and the failing question was already counted into `total_questions` when
its file was loaded); the harness does not exclude the question and
continue.  Here the embedding collaborator fails on the first of two
questions and the whole run returns that error. -/
theorem evaluator_aborts_on_embed_error :
    evaluate_retrieval embedFailW searchW 5 [[qW1, qW2]]
      = Except.error "CollaboratorError: embedding" := by
  rfl
